import Mathlib

/- Shallow embedding of the Shadowrun randomizer web front-end
   (web_interface.js and web_worker.js).  Byte sequences are rendered as
   `List Nat` whose members lie below 256; JavaScript and Python strings
   are rendered as `List Char`. -/

/-! ## Binary-to-text codec: bytesToBase64 / base64ToBytes (web_interface.js) -/

/-- The 65-symbol alphabet of `bytesToBase64`: 64 data symbols plus the
padding symbol at index 64. -/
def base64Alphabet : List Char :=
  "ABCDEFGHIJKLMNOPQRSTUVWXYZabcdefghijklmnopqrstuvwxyz0123456789+/=".toList

/-- `PADDING_INDEX = alphabet.length - 1`. -/
def paddingIndex : Nat := 64

/-- Indexing into the alphabet string, `alphabet[i]` (in bounds whenever used). -/
def alphaChar (n : Nat) : Char := base64Alphabet.getD n ' '

/-- `bytesToBase64` (web_interface.js lines 21-53).  The loop processes the
input in 3-byte groups, emitting four symbols per group; the two partial
final groups come from the two `else` branches of the loop body.  The
JavaScript bit operations on byte values are rendered arithmetically:
`(b AND 0b11111100) >> 2` is `b / 4 % 64`, `(b AND 0b00000011) << 4` is
`b % 4 * 16`, `(b AND 0b11110000) >> 4` is `b / 16 % 16`,
`(b AND 0b00001111) << 2` is `b % 16 * 4`, `(b AND 0b11000000) >> 6` is
`b / 64 % 4`, `b AND 0b00111111` is `b % 64`, and `x OR y` on the disjoint
halves of one symbol is `x + y`. -/
def bytesToBase64 : List Nat → List Char
  | [] => []
  | [b0] =>
      [alphaChar (b0 / 4 % 64), alphaChar (b0 % 4 * 16),
       alphaChar paddingIndex, alphaChar paddingIndex]
  | [b0, b1] =>
      [alphaChar (b0 / 4 % 64), alphaChar (b0 % 4 * 16 + b1 / 16 % 16),
       alphaChar (b1 % 16 * 4), alphaChar paddingIndex]
  | b0 :: b1 :: b2 :: rest =>
      alphaChar (b0 / 4 % 64) :: alphaChar (b0 % 4 * 16 + b1 / 16 % 16) ::
      alphaChar (b1 % 16 * 4 + b2 / 64 % 4) :: alphaChar (b2 % 64) ::
      bytesToBase64 rest

/-- Position of a character in the 64-symbol data alphabet; `none` for every
other character, the padding symbol included.  Used by the model of the
platform decoder `atob`. -/
def b64Index (c : Char) : Option Nat :=
  (base64Alphabet.take 64).findIdx? (· = c)

/-- `base64ToBytes` (web_interface.js lines 55-58): the platform decoder
`atob` followed by reading each code point of the decoded string into one
byte.  `atob` is a platform builtin, modelled here from its documented
semantics (forgiving-base64 decode) restricted to canonical padded input,
which is the only shape `bytesToBase64` ever emits: each full group of four
data symbols decodes to three bytes, a final group padded with one or two
`=` symbols decodes to two bytes or one, and any other input (a character
outside the alphabet, a group of the wrong shape, text after the padding)
is a decoding error, rendered as `none`. -/
def base64ToBytes : List Char → Option (List Nat)
  | [] => some []
  | c0 :: c1 :: c2 :: c3 :: rest =>
      match b64Index c0, b64Index c1 with
      | some i0, some i1 =>
          if c2 = '=' then
            if c3 = '=' ∧ rest = [] then some [i0 * 4 + i1 / 16] else none
          else
            match b64Index c2 with
            | some i2 =>
                if c3 = '=' then
                  if rest = [] then
                    some [i0 * 4 + i1 / 16, i1 % 16 * 16 + i2 / 4]
                  else none
                else
                  match b64Index c3, base64ToBytes rest with
                  | some i3, some tail =>
                      some ((i0 * 4 + i1 / 16) :: (i1 % 16 * 16 + i2 / 4) ::
                            (i2 % 4 * 64 + i3) :: tail)
                  | _, _ => none
            | none => none
      | _, _ => none
  | _ => none

theorem b64Index_alphaChar : ∀ n, n < 64 → b64Index (alphaChar n) = some n := by
  decide

theorem alphaChar_ne_pad : ∀ n, n < 64 → alphaChar n ≠ '=' := by
  decide

theorem alphaChar_pad : alphaChar paddingIndex = '=' := by decide

/-- C1: decoding the text produced by encoding any byte sequence returns
exactly that sequence: `base64ToBytes (bytesToBase64 x) = some x` (the
`some` records that decoding succeeds rather than raising). -/
theorem c1_base64_roundtrip (x : List Nat) (h : ∀ b ∈ x, b < 256) :
    base64ToBytes (bytesToBase64 x) = some x := by
  induction x using bytesToBase64.induct with
  | case1 => rfl
  | case2 b0 =>
    have hb : b0 < 256 := h b0 (by simp)
    have e0 := b64Index_alphaChar (b0 / 4 % 64) (by omega)
    have e1 := b64Index_alphaChar (b0 % 4 * 16) (by omega)
    simp only [bytesToBase64, base64ToBytes, e0, e1, alphaChar_pad]
    norm_num
    omega
  | case3 b0 b1 =>
    have hb0 : b0 < 256 := h b0 (by simp)
    have hb1 : b1 < 256 := h b1 (by simp)
    have e0 := b64Index_alphaChar (b0 / 4 % 64) (by omega)
    have e1 := b64Index_alphaChar (b0 % 4 * 16 + b1 / 16 % 16) (by omega)
    have e2 := b64Index_alphaChar (b1 % 16 * 4) (by omega)
    have n2 := alphaChar_ne_pad (b1 % 16 * 4) (by omega)
    simp only [bytesToBase64, base64ToBytes, e0, e1, e2, alphaChar_pad, if_neg n2]
    norm_num
    omega
  | case4 b0 b1 b2 rest ih =>
    have hb0 : b0 < 256 := h b0 (by simp)
    have hb1 : b1 < 256 := h b1 (by simp)
    have hb2 : b2 < 256 := h b2 (by simp)
    have hrest : ∀ b ∈ rest, b < 256 := fun b hb => h b (by simp [hb])
    have e0 := b64Index_alphaChar (b0 / 4 % 64) (by omega)
    have e1 := b64Index_alphaChar (b0 % 4 * 16 + b1 / 16 % 16) (by omega)
    have e2 := b64Index_alphaChar (b1 % 16 * 4 + b2 / 64 % 4) (by omega)
    have e3 := b64Index_alphaChar (b2 % 64) (by omega)
    have n2 := alphaChar_ne_pad (b1 % 16 * 4 + b2 / 64 % 4) (by omega)
    have n3 := alphaChar_ne_pad (b2 % 64) (by omega)
    simp only [bytesToBase64, base64ToBytes, e0, e1, e2, e3, ih hrest,
      if_neg n2, if_neg n3]
    norm_num
    omega

/-- Witness for C1 at the concrete input `[0, 100, 200, 255]`. -/
theorem c1_base64_roundtrip_witness :
    (∀ b ∈ [0, 100, 200, 255], b < 256) ∧
      base64ToBytes (bytesToBase64 [0, 100, 200, 255]) = some [0, 100, 200, 255] :=
  ⟨by decide, c1_base64_roundtrip [0, 100, 200, 255] (by decide)⟩

example : bytesToBase64 [77, 97, 110] = "TWFu".toList := by decide
example : bytesToBase64 [77, 97] = "TWE=".toList := by decide
example : bytesToBase64 [77] = "TQ==".toList := by decide
example : base64ToBytes "TWFu".toList = some [77, 97, 110] := by decide
example : base64ToBytes "TWE=".toList = some [77, 97] := by decide

/-! ## Image validator: isValidROM (web_interface.js lines 62-82) -/

/-- `romBytes.slice(start, end)` on a typed array, in an embedding with
Option-returning bounds: `none` when the requested range reaches past the
end of the sequence (the platform slice would clamp instead, so a `none`
marks an access the validator never makes). -/
def listSlice (l : List Nat) (b e : Nat) : Option (List Nat) :=
  if e ≤ l.length then some ((l.drop b).take (e - b)) else none

/-- `String.fromCharCode` on one value: the platform builtin takes its
argument modulo 2^16 and yields that UTF-16 code unit. -/
def jsFromCharCode (n : Nat) : Char := Char.ofNat (n % 65536)

/-- The expected internal name, `"SHADOWRUN            "` (21 characters:
the 9 letters then 12 spaces). -/
def goodName : List Char := "SHADOWRUN            ".toList

/-- The expected internal checksum. -/
def goodChecksum : Nat := 0xF834

/-- The byte values of the expected internal name field. -/
def goodNameBytes : List Nat := goodName.map Char.toNat

/-- `isValidROM` (web_interface.js lines 62-82).  The three sequential
checks of the source: length exactly 1048576; the 21 bytes sliced from
0x7FC0 to 0x7FD5, read through `String.fromCharCode`, equal the expected
name; the little-endian pair at 0x7FDE/0x7FDF equals the expected
checksum.  Element accesses are Option-returning, so a `none` result marks
an out-of-bounds access the JavaScript source would have made. -/
def isValidROM (romBytes : List Nat) : Option Bool :=
  if romBytes.length ≠ 1048576 then some false
  else
    match listSlice romBytes 0x7FC0 0x7FD5 with
    | none => none
    | some nameBytes =>
      if nameBytes.map jsFromCharCode ≠ goodName then some false
      else
        match romBytes[0x7FDE]?, romBytes[0x7FDF]? with
        | some lo, some hi =>
            if lo + (hi <<< 8) ≠ goodChecksum then some false else some true
        | _, _ => none

/-- Every branch of the validator yields a boolean: the accesses at
0x7FC0-0x7FD4, 0x7FDE and 0x7FDF happen only after the length check has
established a length of 1048576, so the out-of-bounds branches are
unreachable. -/
theorem isValidROM_isSome (b : List Nat) : (isValidROM b).isSome = true := by
  unfold isValidROM
  by_cases hl : b.length = 1048576
  · have hs : listSlice b 0x7FC0 0x7FD5 =
        some ((b.drop 0x7FC0).take (0x7FD5 - 0x7FC0)) := by
      unfold listSlice
      rw [if_pos (by omega)]
    have hlo : b[0x7FDE]? = some b[0x7FDE] :=
      List.getElem?_eq_getElem (by omega)
    have hhi : b[0x7FDF]? = some b[0x7FDF] :=
      List.getElem?_eq_getElem (by omega)
    rw [if_neg (by omega), hs, hlo, hhi]
    dsimp only
    split
    · simp
    · split <;> simp
  · rw [if_pos (by omega)]
    rfl

/-- C9: `isValidROM` never reads outside the bounds of its input: in this
Option-returning embedding, no input makes it return `none`. -/
theorem c9_isValidROM_no_oob_access (b : List Nat) :
    (isValidROM b).isSome = true :=
  isValidROM_isSome b

set_option maxRecDepth 4000 in
theorem charOfNat_toNat : ∀ x, x < 256 → (Char.ofNat x).toNat = x := by decide

theorem jsFromCharCode_eq_iff {x : Nat} (hx : x < 256) {y : Char} :
    jsFromCharCode x = y ↔ x = y.toNat := by
  unfold jsFromCharCode
  rw [Nat.mod_eq_of_lt (by omega)]
  constructor
  · intro h
    rw [← h, charOfNat_toNat x hx]
  · intro h
    rw [h, Char.ofNat_toNat]

theorem map_jsFromCharCode_eq_iff :
    ∀ (xs : List Nat), (∀ x ∈ xs, x < 256) → ∀ (ys : List Char),
      (xs.map jsFromCharCode = ys ↔ xs = ys.map Char.toNat)
  | [], _, ys => by cases ys <;> simp
  | x :: xs, h, ys => by
    cases ys with
    | nil => simp
    | cons y ys =>
      have hx : x < 256 := h x (by simp)
      have ih := map_jsFromCharCode_eq_iff xs (fun a ha => h a (by simp [ha])) ys
      simp only [List.map_cons, List.cons.injEq]
      rw [jsFromCharCode_eq_iff hx, ih]

/-- The validator accepts exactly the sequences with the right length, the
right name field and the right little-endian checksum. -/
theorem isValidROM_characterization (b : List Nat) (hb : ∀ x ∈ b, x < 256) :
    isValidROM b = some true ↔
      (b.length = 1048576 ∧ (b.drop 0x7FC0).take 21 = goodNameBytes ∧
        b.getD 0x7FDE 0 + 256 * b.getD 0x7FDF 0 = 0xF834) := by
  by_cases hl : b.length = 1048576
  · obtain ⟨lo, hlo⟩ : ∃ lo, b[0x7FDE]? = some lo :=
      ⟨_, List.getElem?_eq_getElem (by omega)⟩
    obtain ⟨hi, hhi⟩ : ∃ hi, b[0x7FDF]? = some hi :=
      ⟨_, List.getElem?_eq_getElem (by omega)⟩
    have hgd1 : b.getD 0x7FDE 0 = lo := by
      rw [List.getD_eq_getElem?_getD, hlo]
      rfl
    have hgd2 : b.getD 0x7FDF 0 = hi := by
      rw [List.getD_eq_getElem?_getD, hhi]
      rfl
    have hslice : ∀ x ∈ (b.drop 0x7FC0).take (0x7FD5 - 0x7FC0), x < 256 :=
      fun x hx => hb x (List.mem_of_mem_drop (List.mem_of_mem_take hx))
    have hname := map_jsFromCharCode_eq_iff _ hslice goodName
    have hgood : goodName.map Char.toNat = goodNameBytes := rfl
    have h21 : (0x7FD5 - 0x7FC0 : Nat) = 21 := rfl
    unfold isValidROM listSlice
    rw [if_neg (by omega), if_pos (by omega), hlo, hhi]
    dsimp only
    rw [hgd1, hgd2, h21]
    rw [h21] at hname
    constructor
    · intro hT
      split_ifs at hT with h1 h2
      · exact absurd hT (by simp)
      · exact absurd hT (by simp)
      · refine ⟨hl, ?_, ?_⟩
        · rw [← hgood]
          exact hname.mp (not_not.mp h1)
        · have hck : lo + hi <<< 8 = goodChecksum := not_not.mp h2
          rw [Nat.shiftLeft_eq] at hck
          norm_num at hck
          have hc : goodChecksum = 0xF834 := rfl
          omega
    · rintro ⟨-, hn, hs⟩
      have hA : ¬((List.take 21 (List.drop 0x7FC0 b)).map jsFromCharCode ≠
          goodName) := by
        rw [not_not]
        refine hname.mpr ?_
        rw [hn, hgood]
      have hB : ¬(lo + hi <<< 8 ≠ goodChecksum) := by
        rw [not_not, Nat.shiftLeft_eq]
        norm_num
        have hc : goodChecksum = 0xF834 := rfl
        omega
      rw [if_neg hA, if_neg hB]
  · unfold isValidROM
    rw [if_pos (by omega)]
    exact iff_of_false (by simp) (fun hcontra => hl hcontra.1)

/-- Mutating one byte of the name field or of the checksum field of an
accepted image makes the validator reject. -/
theorem isValidROM_set_false (b : List Nat) (hb : ∀ x ∈ b, x < 256)
    (hv : isValidROM b = some true) (i v : Nat)
    (hi : (0x7FC0 ≤ i ∧ i ≤ 0x7FD4) ∨ i = 0x7FDE ∨ i = 0x7FDF)
    (hv256 : v < 256) (hne : v ≠ b.getD i 0) :
    isValidROM (b.set i v) = some false := by
  obtain ⟨hl, hn, hs⟩ := (isValidROM_characterization b hb).mp hv
  have hilt : i < b.length := by omega
  have hb' : ∀ x ∈ b.set i v, x < 256 := by
    intro x hx
    rcases List.mem_or_eq_of_mem_set hx with h | h
    · exact hb x h
    · omega
  have hgdi : b.getD i 0 = b.get ⟨i, hilt⟩ := List.getD_eq_getElem b 0 hilt
  have hnotT : ¬ (isValidROM (b.set i v) = some true) := by
    intro hT
    obtain ⟨hl', hn', hs'⟩ := (isValidROM_characterization _ hb').mp hT
    rcases hi with ⟨hi1, hi2⟩ | hieq | hieq
    · have hj : i - 0x7FC0 < 21 := by omega
      have e1 := congrArg (fun l => l[i - 0x7FC0]?) hn'
      have e2 := congrArg (fun l => l[i - 0x7FC0]?) hn
      simp only [List.getElem?_take, List.getElem?_drop] at e1 e2
      rw [if_pos hj] at e1 e2
      rw [show 0x7FC0 + (i - 0x7FC0) = i from by omega] at e1 e2
      rw [List.getElem?_set_self hilt] at e1
      rw [List.getElem?_eq_getElem hilt] at e2
      have : some v = some (b.get ⟨i, hilt⟩) := e1.trans e2.symm
      rw [hgdi] at hne
      exact hne (Option.some.inj this)
    · subst hieq
      have ea : (b.set 0x7FDE v).getD 0x7FDE 0 = v := by
        rw [List.getD_eq_getElem?_getD, List.getElem?_set_self (by omega)]
        rfl
      have eb : (b.set 0x7FDE v).getD 0x7FDF 0 = b.getD 0x7FDF 0 := by
        rw [List.getD_eq_getElem?_getD, List.getElem?_set_ne (by omega),
          ← List.getD_eq_getElem?_getD]
      rw [ea, eb] at hs'
      omega
    · subst hieq
      have ea : (b.set 0x7FDF v).getD 0x7FDF 0 = v := by
        rw [List.getD_eq_getElem?_getD, List.getElem?_set_self (by omega)]
        rfl
      have eb : (b.set 0x7FDF v).getD 0x7FDE 0 = b.getD 0x7FDE 0 := by
        rw [List.getD_eq_getElem?_getD, List.getElem?_set_ne (by omega),
          ← List.getD_eq_getElem?_getD]
      rw [ea, eb] at hs'
      omega
  have hsome := isValidROM_isSome (b.set i v)
  rcases hres : isValidROM (b.set i v) with _ | bb
  · rw [hres] at hsome
    simp at hsome
  · cases bb
    · rfl
    · exact absurd hres hnotT

/-- C2: `isValidROM` returns true exactly when the length is 1048576, the
21 bytes at 0x7FC0 are the ASCII codes of "SHADOWRUN" followed by 12
spaces, and the little-endian 16-bit integer at 0x7FDE/0x7FDF is 0xF834;
consequently changing any single byte of either field of an accepted
image, or having any other length, makes it return false.  The result is a
single boolean (`some true` or `some false`). -/
theorem c2_isValidROM_spec (b : List Nat) (hb : ∀ x ∈ b, x < 256) :
    (isValidROM b = some true ↔
      (b.length = 1048576 ∧ (b.drop 0x7FC0).take 21 = goodNameBytes ∧
        b.getD 0x7FDE 0 + 256 * b.getD 0x7FDF 0 = 0xF834)) ∧
    (∀ i v, isValidROM b = some true →
      ((0x7FC0 ≤ i ∧ i ≤ 0x7FD4) ∨ i = 0x7FDE ∨ i = 0x7FDF) → v < 256 →
      v ≠ b.getD i 0 → isValidROM (b.set i v) = some false) ∧
    (b.length ≠ 1048576 → isValidROM b = some false) := by
  refine ⟨isValidROM_characterization b hb,
    fun i v hv hi h256 hne => isValidROM_set_false b hb hv i v hi h256 hne,
    fun hlen => ?_⟩
  unfold isValidROM
  rw [if_pos hlen]

/-- Witness for C2 at the concrete input `[]` (the empty byte sequence). -/
theorem c2_isValidROM_spec_witness :
    (∀ x ∈ ([] : List Nat), x < 256) ∧
    ((isValidROM [] = some true ↔
      (([] : List Nat).length = 1048576 ∧
        (([] : List Nat).drop 0x7FC0).take 21 = goodNameBytes ∧
        ([] : List Nat).getD 0x7FDE 0 + 256 * ([] : List Nat).getD 0x7FDF 0 =
          0xF834)) ∧
    (∀ i v, isValidROM [] = some true →
      ((0x7FC0 ≤ i ∧ i ≤ 0x7FD4) ∨ i = 0x7FDE ∨ i = 0x7FDF) → v < 256 →
      v ≠ ([] : List Nat).getD i 0 → isValidROM (([] : List Nat).set i v) = some false) ∧
    (([] : List Nat).length ≠ 1048576 → isValidROM [] = some false)) :=
  ⟨by decide, c2_isValidROM_spec [] (by decide)⟩

/-! ## UI controller: updateFileButton, changeFileName, generate
(web_interface.js lines 108-211) -/

/-- What the file button and the generate control show after
`updateFileButton` ran: the button class added, the button caption, and
whether the generate control is disabled. -/
structure FileButtonState where
  buttonClass : String
  buttonText : String
  generateDisabled : Bool
deriving DecidableEq, Repr

/-- `updateFileButton` (web_interface.js lines 108-129) as a function of the
store contents (the value under the rom_base64 key, `none` when absent).
`none` in the result marks the one branch where the platform decoder would
raise on a corrupted record; otherwise the visible state is determined by
the store contents and the validator verdict alone. -/
def updateFileButton (store : Option (List Char)) : Option FileButtonState :=
  match store with
  | none => some ⟨"btn-warning", "No ROM selected", true⟩
  | some romBase64 =>
    match base64ToBytes romBase64 with
    | none => none
    | some romBytes =>
      match isValidROM romBytes with
      | some true => some ⟨"btn-success", "Valid ROM selected", false⟩
      | _ => some ⟨"btn-danger", "Invalid ROM selected", true⟩

/-- The whitespace class trimmed by `String.prototype.trim`, modelled from
the ECMAScript definition (WhiteSpace plus LineTerminator code points). -/
def isJsWhitespace (c : Char) : Bool :=
  c.toNat = 0x9 || c.toNat = 0xA || c.toNat = 0xB || c.toNat = 0xC ||
  c.toNat = 0xD || c.toNat = 0x20 || c.toNat = 0xA0 || c.toNat = 0x1680 ||
  (0x2000 ≤ c.toNat && c.toNat ≤ 0x200A) || c.toNat = 0x2028 ||
  c.toNat = 0x2029 || c.toNat = 0x202F || c.toNat = 0x205F ||
  c.toNat = 0x3000 || c.toNat = 0xFEFF

/-- `value.trim()`: strip the whitespace class from both ends. -/
def jsTrim (s : List Char) : List Char :=
  ((s.dropWhile isJsWhitespace).reverse.dropWhile isJsWhitespace).reverse

/-- The test `new RegExp("^[0-9]+$").test(seed)` of web_interface.js line
192-193: one or more characters, every one a decimal digit. -/
def integerRegexTest (s : List Char) : Bool :=
  !s.isEmpty && s.all (fun c => 48 ≤ c.toNat && c.toNat ≤ 57)

/-- The request `generate` posts to the worker (web_interface.js lines
205-210): the decoded image bytes, the trimmed seed text and the two
checkbox flags. -/
structure DispatchArgs where
  romBytes : List Nat
  seedString : List Char
  itemDuplication : Bool
  spoilerLog : Bool
deriving DecidableEq, Repr

/-- What one run of `generate` leaves behind: the status message it set
(`none` when it only cleared the status), and the job it posted to the
worker (`none` when it returned without dispatching). -/
structure GenerateOutcome where
  message : Option String
  posted : Option DispatchArgs
deriving DecidableEq, Repr

/-- `generate` (web_interface.js lines 178-211) as a function of the store
contents, the raw seed input and the two checkbox flags.  The outer `none`
marks the one branch where the platform decoder would raise on a corrupted
record.  The unreachable `none` verdict of the Option-returning validator
is routed to the "Invalid ROM selected" branch, matching the falsiness
test `!isValidROM(romBytes)` of the source. -/
def generate (store : Option (List Char)) (seedInput : List Char)
    (itemDuplication spoilerLog : Bool) : Option GenerateOutcome :=
  match store with
  | none => some ⟨some "No ROM selected", none⟩
  | some romBase64 =>
    match base64ToBytes romBase64 with
    | none => none
    | some romBytes =>
      match isValidROM romBytes with
      | some true =>
        let seed := jsTrim seedInput
        if !integerRegexTest seed then some ⟨some "Seed must be a number", none⟩
        else
          some ⟨some "Generation in progress, this may take some time...",
            some ⟨romBytes, seed, itemDuplication, spoilerLog⟩⟩
      | _ => some ⟨some "Invalid ROM selected", none⟩

/-- How `changeFileName` observes `storageWrapper.setItem`: it succeeds, or
it raises the capacity-exceeded `QuotaExceededError`, or it raises some
other error. -/
inductive SetItemOutcome where
  | ok
  | quotaExceeded
  | otherError
deriving DecidableEq, Repr

/-- `changeFileName` (web_interface.js lines 133-152) on the path where a
file was chosen, as a function of the set operation's outcome.  `leftover`
is whatever record a failed `setItem` left under the key (the platform
makes no promise used here), so the `removeItem` in the catch branch is
what guarantees the absent state.  The result is `Except.error` when the
error is rethrown, otherwise the final store contents and the status
message shown. -/
def changeFileName (fileBytes : List Nat) (outcome : SetItemOutcome)
    (leftover : Option (List Char)) :
    Except Unit (Option (List Char) × Option String) :=
  match outcome with
  | .ok => .ok (some (bytesToBase64 fileBytes), none)
  | .quotaExceeded =>
      let _afterFailedSet := leftover
      let afterRemove : Option (List Char) := none
      .ok (afterRemove,
        some "Could not store ROM: localStorage quota exceeded")
  | .otherError => .error ()

/-- C8: the visible state derived by `updateFileButton` is a function of
the store contents and the validator verdict: store empty gives the
"No ROM selected" warning state with submission disabled; a stored record
decoding to an invalid image gives the "Invalid ROM selected" danger state
with submission disabled; a stored record decoding to a valid image gives
the "Valid ROM selected" success state with submission enabled. -/
theorem c8_updateFileButton_spec (store : Option (List Char)) :
    (store = none →
      updateFileButton store = some ⟨"btn-warning", "No ROM selected", true⟩) ∧
    (∀ r bytes, store = some r → base64ToBytes r = some bytes →
      isValidROM bytes = some false →
      updateFileButton store =
        some ⟨"btn-danger", "Invalid ROM selected", true⟩) ∧
    (∀ r bytes, store = some r → base64ToBytes r = some bytes →
      isValidROM bytes = some true →
      updateFileButton store =
        some ⟨"btn-success", "Valid ROM selected", false⟩) := by
  refine ⟨fun h => by rw [h]; rfl, ?_, ?_⟩
  · intro r bytes hr hdec hval
    rw [hr]
    simp only [updateFileButton, hdec, hval]
  · intro r bytes hr hdec hval
    rw [hr]
    simp only [updateFileButton, hdec, hval]

/-- Witness for C8 at the concrete store state `none`. -/
theorem c8_updateFileButton_spec_witness :
    updateFileButton none = some ⟨"btn-warning", "No ROM selected", true⟩ :=
  (c8_updateFileButton_spec none).1 rfl

/-- C7: when the set operation fails with the capacity-exceeded condition,
the store afterwards holds no record under the image key, whatever the
failed set left behind, and the failure becomes a recoverable status
message; any other error from the set operation is rethrown. -/
theorem c7_changeFileName_quota (fileBytes : List Nat)
    (leftover : Option (List Char)) :
    (changeFileName fileBytes .quotaExceeded leftover =
      .ok (none, some "Could not store ROM: localStorage quota exceeded")) ∧
    (changeFileName fileBytes .otherError leftover = .error ()) :=
  ⟨rfl, rfl⟩

/-- C3: `generate` posts a job to the worker exactly when a stored record
exists, its decoded bytes pass the validator, and the trimmed seed input
is one or more decimal digits; each failed check short-circuits with its
message ("No ROM selected", "Invalid ROM selected", "Seed must be a
number") and posts nothing.  The digit test accepts "0", "4294967295" and
"007" and rejects "", "12.3", "-5" and "abc". -/
theorem c3_generate_spec (store : Option (List Char)) (seedInput : List Char)
    (dup spoil : Bool) :
    (∀ out, generate store seedInput dup spoil = some out →
      (out.posted ≠ none ↔
        ∃ r bytes, store = some r ∧ base64ToBytes r = some bytes ∧
          isValidROM bytes = some true ∧
          integerRegexTest (jsTrim seedInput) = true)) ∧
    (store = none →
      generate store seedInput dup spoil = some ⟨some "No ROM selected", none⟩) ∧
    (∀ r bytes, store = some r → base64ToBytes r = some bytes →
      isValidROM bytes ≠ some true →
      generate store seedInput dup spoil =
        some ⟨some "Invalid ROM selected", none⟩) ∧
    (∀ r bytes, store = some r → base64ToBytes r = some bytes →
      isValidROM bytes = some true →
      integerRegexTest (jsTrim seedInput) = false →
      generate store seedInput dup spoil =
        some ⟨some "Seed must be a number", none⟩) ∧
    (∀ r bytes, store = some r → base64ToBytes r = some bytes →
      isValidROM bytes = some true →
      integerRegexTest (jsTrim seedInput) = true →
      generate store seedInput dup spoil =
        some ⟨some "Generation in progress, this may take some time...",
          some ⟨bytes, jsTrim seedInput, dup, spoil⟩⟩) ∧
    (integerRegexTest (jsTrim "0".toList) = true ∧
      integerRegexTest (jsTrim "4294967295".toList) = true ∧
      integerRegexTest (jsTrim "007".toList) = true ∧
      integerRegexTest (jsTrim "".toList) = false ∧
      integerRegexTest (jsTrim "12.3".toList) = false ∧
      integerRegexTest (jsTrim "-5".toList) = false ∧
      integerRegexTest (jsTrim "abc".toList) = false) := by
  refine ⟨?_, ?_, ?_, ?_, ?_, by decide⟩
  · intro out hout
    rcases store with _ | r
    · simp only [generate] at hout
      cases hout
      simp
    · rcases hdec : base64ToBytes r with _ | bytes
      · simp only [generate, hdec] at hout
        cases hout
      · rcases hval : isValidROM bytes with _ | bv
        · simp only [generate, hdec, hval] at hout
          cases hout
          simp only [ne_eq, not_true_eq_false, false_iff, not_exists]
          intro r' bytes' h'
          obtain ⟨hr', hdec', hval', _⟩ := h'
          cases hr'
          rw [hdec'] at hdec
          cases hdec
          rw [hval'] at hval
          cases hval
        · cases bv
          · simp only [generate, hdec, hval] at hout
            cases hout
            simp only [ne_eq, not_true_eq_false, false_iff, not_exists]
            intro r' bytes' h'
            obtain ⟨hr', hdec', hval', _⟩ := h'
            cases hr'
            rw [hdec'] at hdec
            cases hdec
            rw [hval'] at hval
            cases hval
          · simp only [generate, hdec, hval] at hout
            by_cases hreg : integerRegexTest (jsTrim seedInput) = true
            · rw [if_neg (by simp [hreg])] at hout
              cases hout
              simp only [ne_eq, Option.some_ne_none, not_false_eq_true, true_iff]
              exact ⟨r, bytes, rfl, hdec, hval, hreg⟩
            · rw [if_pos (by simpa using hreg)] at hout
              cases hout
              simp only [ne_eq, not_true_eq_false, false_iff, not_exists]
              intro r' bytes' h'
              obtain ⟨hr', hdec', _, hreg'⟩ := h'
              exact hreg hreg'
  · intro h
    rw [h]
    rfl
  · intro r bytes hr hdec hval
    rw [hr]
    rcases hv : isValidROM bytes with _ | bv
    · simp only [generate, hdec, hv]
    · cases bv
      · simp only [generate, hdec, hv]
      · exact absurd hv hval
  · intro r bytes hr hdec hval hreg
    rw [hr]
    simp only [generate, hdec, hval]
    rw [if_pos (by simp [hreg])]
  · intro r bytes hr hdec hval hreg
    rw [hr]
    simp only [generate, hdec, hval]
    rw [if_neg (by simp [hreg])]

/-! ## Job dispatcher: runRandomizer (web_worker.js lines 25-98) -/

/-- The fixed path the image bytes are written under, `romFileName`. -/
def romFileName : String := "shadowrun.sfc"

/-- The simulated argument vector `mockArgv` built by `runRandomizer`
(web_worker.js lines 36-49): the script name, then `--dry-run`, then
`--seed <text>` when the seed text is truthy (non-empty), then
`--allow-item-duplication` and `--spoiler-log` when their flags are set,
then the `--` separator and the written image's path. -/
def buildMockArgv (seedString : String) (itemDuplication spoilerLog : Bool) :
    List String :=
  let argv0 := ["shadowrun_randomizer.py"]
  let argv1 := argv0 ++ ["--dry-run"]
  let argv2 := if seedString ≠ "" then argv1 ++ ["--seed", seedString] else argv1
  let argv3 := if itemDuplication then argv2 ++ ["--allow-item-duplication"]
    else argv2
  let argv4 := if spoilerLog then argv3 ++ ["--spoiler-log"] else argv3
  argv4 ++ ["--", romFileName]

/-- The argument vector exactly as C4 words it: a forced dry-run flag, then
`--seed <text>` iff the seed text is non-empty, then
`--allow-item-duplication` iff the duplication flag is set, then
`--spoiler-log` iff the log flag is set, then the written image's path --
nothing else. -/
def claimedArgvC4 (seedString : String) (itemDuplication spoilerLog : Bool) :
    List String :=
  ["--dry-run"] ++
  (if seedString ≠ "" then ["--seed", seedString] else []) ++
  (if itemDuplication then ["--allow-item-duplication"] else []) ++
  (if spoilerLog then ["--spoiler-log"] else []) ++
  [romFileName]

/-- C4 as stated is false: the vector the dispatcher builds also starts
with the script name and separates the flags from the path with `--`. -/
theorem c4_argv_counterexample :
    buildMockArgv "" false false ≠ claimedArgvC4 "" false false := by decide

/-- C4 (amended): the argument vector the dispatcher builds is the script
name, then the forced dry-run flag, then `--seed <text>` iff the seed text
is non-empty, then `--allow-item-duplication` iff the duplication flag is
set, then `--spoiler-log` iff the log flag is set, then the `--` separator
followed by the written image's path. -/
theorem c4_argv_spec (seedString : String) (itemDuplication spoilerLog : Bool) :
    buildMockArgv seedString itemDuplication spoilerLog =
      ["shadowrun_randomizer.py", "--dry-run"] ++
      (if seedString ≠ "" then ["--seed", seedString] else []) ++
      (if itemDuplication then ["--allow-item-duplication"] else []) ++
      (if spoilerLog then ["--spoiler-log"] else []) ++
      ["--", romFileName] := by
  unfold buildMockArgv
  split_ifs <;> simp


/-- The Python `outFileName.rpartition(".")` of the embedded packaging code
(web_worker.js line 73), modelled from the documented builtin semantics:
split around the last occurrence of `"."`; `some (stem, ext)` when a dot
occurs (Python yields `(stem, ".", ext)`), `none` when no dot occurs
(Python yields `("", "", s)`, whose first component is the falsy empty
string). -/
def rpartitionDot : List Char → Option (List Char × List Char)
  | [] => none
  | c :: rest =>
      match rpartitionDot rest with
      | some (stem, ext) => some (c :: stem, ext)
      | none => if c = '.' then some ([], rest) else none

/-- The packaging code's basename choice (web_worker.js lines 73-77): the
stem when the split around the final dot has a truthy (non-empty) stem and
extension, the chosen output name unchanged otherwise. -/
def newBasename (outFileName : List Char) : List Char :=
  match rpartitionDot outFileName with
  | some (stem, ext) => if stem ≠ [] ∧ ext ≠ [] then stem else outFileName
  | none => outFileName

theorem rpartitionDot_eq_none (s : List Char) (h : '.' ∉ s) :
    rpartitionDot s = none := by
  induction s with
  | nil => rfl
  | cons c rest ih =>
    have hc : c ≠ '.' := fun hcc => h (by simp [hcc])
    have hr : '.' ∉ rest := fun hm => h (by simp [hm])
    simp only [rpartitionDot, ih hr]
    rw [if_neg hc]

theorem rpartitionDot_ne_none (s : List Char) (h : '.' ∈ s) :
    rpartitionDot s ≠ none := by
  induction s with
  | nil => cases h
  | cons c rest ih =>
    simp only [rpartitionDot]
    rcases hr : rpartitionDot rest with _ | p
    · rcases List.mem_cons.mp h with hc | hm
      · rw [if_pos hc.symm]
        simp
      · exact absurd hr (ih hm)
    · simp

theorem rpartitionDot_last (stem ext : List Char) (h : '.' ∉ ext) :
    rpartitionDot (stem ++ '.' :: ext) = some (stem, ext) := by
  induction stem with
  | nil =>
    simp only [List.nil_append, rpartitionDot, rpartitionDot_eq_none ext h]
    simp
  | cons c rest ih =>
    simp only [List.cons_append, rpartitionDot, List.append_eq, ih]

theorem rpartitionDot_sound (s : List Char) :
    ∀ stem ext, rpartitionDot s = some (stem, ext) →
      s = stem ++ '.' :: ext ∧ '.' ∉ ext := by
  induction s with
  | nil =>
    intro stem ext h
    cases h
  | cons c rest ih =>
    intro stem ext h
    simp only [rpartitionDot] at h
    rcases hr : rpartitionDot rest with _ | p
    · rw [hr] at h
      by_cases hc : c = '.'
      · rw [if_pos hc] at h
        cases h
        subst hc
        exact ⟨rfl, fun hm => rpartitionDot_ne_none rest hm hr⟩
      · rw [if_neg hc] at h
        cases h
    · obtain ⟨stem', ext'⟩ := p
      rw [hr] at h
      cases h
      obtain ⟨h1, h2⟩ := ih _ _ hr
      exact ⟨by rw [h1]; rfl, h2⟩

/-- C5: the packager's basename is the stem whenever splitting the chosen
output name around its final dot yields a non-empty stem and a non-empty
extension, and the chosen name unchanged otherwise; in particular
"foo.sfc" gives "foo", "foo" gives "foo", ".sfc" gives ".sfc". -/
theorem c5_newBasename_spec :
    (∀ stem ext : List Char, stem ≠ [] → ext ≠ [] → '.' ∉ ext →
      newBasename (stem ++ '.' :: ext) = stem) ∧
    (∀ s : List Char,
      (¬ ∃ stem ext, s = stem ++ '.' :: ext ∧ stem ≠ [] ∧ ext ≠ [] ∧
        '.' ∉ ext) → newBasename s = s) ∧
    newBasename "foo.sfc".toList = "foo".toList ∧
    newBasename "foo".toList = "foo".toList ∧
    newBasename ".sfc".toList = ".sfc".toList := by
  refine ⟨?_, ?_, by decide, by decide, by decide⟩
  · intro stem ext hstem hext hdot
    unfold newBasename
    rw [rpartitionDot_last stem ext hdot]
    dsimp only
    rw [if_pos (show stem ≠ [] ∧ ext ≠ [] from ⟨hstem, hext⟩)]
  · intro s hno
    unfold newBasename
    rcases hr : rpartitionDot s with _ | p
    · rfl
    · obtain ⟨stem, ext⟩ := p
      obtain ⟨hsplit, hdot⟩ := rpartitionDot_sound s stem ext hr
      dsimp only
      by_cases hb : stem ≠ [] ∧ ext ≠ []
      · exact absurd ⟨stem, ext, hsplit, hb.1, hb.2, hdot⟩ hno
      · rw [if_neg hb]

/-- Witness for C5 at the concrete split of "a.b" into stem "a" and
extension "b". -/
theorem c5_newBasename_spec_witness :
    (['a'] : List Char) ≠ [] ∧ (['b'] : List Char) ≠ [] ∧
      '.' ∉ (['b'] : List Char) ∧
      newBasename (['a'] ++ '.' :: ['b']) = ['a'] :=
  ⟨by decide, by decide, by decide,
    c5_newBasename_spec.1 ['a'] ['b'] (by decide) (by decide) (by decide)⟩

/-- The content of one archive entry: the produced image bytes (written by
`zf.writestr(..., module.romBytes)`) or the captured log text (written by
`zf.writestr(..., capturedOutput)`). -/
inductive ZipContent where
  | bytes (b : List Nat)
  | text (t : List Char)
deriving DecidableEq, Repr

/-- What one completed job posts back (web_worker.js lines 79-97): the
in-memory archive as its list of named entries, the archive's own name,
and the attempt counter read from the script. -/
structure WorkerResult where
  zipEntries : List (List Char × ZipContent)
  zipFileName : List Char
  attemptNumber : Nat
deriving DecidableEq, Repr

/-- The result packaging of `runRandomizer` (web_worker.js lines 73-97):
derive the basename from the script's chosen output name, write the two
entries `<basename>.sfc` and `<basename>.txt` into one archive, and name
the archive `<basename>.zip`. -/
def packageResult (outFileName : List Char) (romBytes : List Nat)
    (capturedOutput : List Char) (attemptNumber : Nat) : WorkerResult :=
  let nb := newBasename outFileName
  ⟨[(nb ++ ".sfc".toList, ZipContent.bytes romBytes),
    (nb ++ ".txt".toList, ZipContent.text capturedOutput)],
   nb ++ ".zip".toList, attemptNumber⟩

/-- C6: for every completed job the archive holds exactly two entries,
`<basename>.sfc` with the produced image bytes and `<basename>.txt` with
the captured log, and the archive is named `<basename>.zip`, all three
names built from the one basename derived from the script's chosen output
name. -/
theorem c6_packageResult_spec (outFileName : List Char) (romBytes : List Nat)
    (capturedOutput : List Char) (attemptNumber : Nat) :
    (packageResult outFileName romBytes capturedOutput
        attemptNumber).zipEntries.length = 2 ∧
    (packageResult outFileName romBytes capturedOutput
        attemptNumber).zipEntries =
      [(newBasename outFileName ++ ".sfc".toList, ZipContent.bytes romBytes),
       (newBasename outFileName ++ ".txt".toList,
        ZipContent.text capturedOutput)] ∧
    (packageResult outFileName romBytes capturedOutput
        attemptNumber).zipFileName = newBasename outFileName ++ ".zip".toList :=
  ⟨rfl, rfl, rfl⟩

/-! ## Seed generation: newSeed (web_interface.js lines 170-174) -/

/-- `Math.trunc`: round toward zero.  The values it is applied to here are
dyadic rationals (IEEE doubles), so the model uses exact rationals. -/
def mathTrunc (x : ℚ) : ℤ := if 0 ≤ x then ⌊x⌋ else ⌈x⌉

/-- The seed value `Math.trunc(r * 2**32)` that `newSeed` writes into the
seed field, as a function of the value `r` returned by `Math.random`
(multiplying a double in [0, 1) by 2^32 scales its exponent and is exact,
so the rational model is faithful). -/
def newSeed (r : ℚ) : Nat := (mathTrunc (r * 2 ^ 32)).toNat

/-- Decimal digits of a number, most significant first, as the platform
renders an integral number into a string (ECMAScript ToString on an
integer below 2^53 yields its plain decimal digits). -/
def natToDecimalAux : Nat → List Char → List Char
  | n, acc =>
    if h : n < 10 then Char.ofNat (48 + n) :: acc
    else natToDecimalAux (n / 10) (Char.ofNat (48 + n % 10) :: acc)
decreasing_by exact Nat.div_lt_self (by omega) (by omega)

/-- The decimal string of a natural number. -/
def natToDecimal (n : Nat) : List Char := natToDecimalAux n []

theorem natToDecimalAux_digits (n : Nat) : ∀ acc : List Char,
    (∀ c ∈ acc, 48 ≤ c.toNat ∧ c.toNat ≤ 57) →
    natToDecimalAux n acc ≠ [] ∧
      ∀ c ∈ natToDecimalAux n acc, 48 ≤ c.toNat ∧ c.toNat ≤ 57 := by
  induction n using Nat.strong_induction_on with
  | _ n ih =>
    intro acc hacc
    have hdig : ∀ d, d < 10 → 48 ≤ (Char.ofNat (48 + d)).toNat ∧
        (Char.ofNat (48 + d)).toNat ≤ 57 := by decide
    by_cases h : n < 10
    · unfold natToDecimalAux
      rw [dif_pos h]
      refine ⟨by simp, ?_⟩
      intro c hc
      rcases List.mem_cons.mp hc with hc | hc
      · rw [hc]
        exact hdig n h
      · exact hacc c hc
    · unfold natToDecimalAux
      rw [dif_neg h]
      refine ih (n / 10) (Nat.div_lt_self (by omega) (by omega)) _ ?_
      intro c hc
      rcases List.mem_cons.mp hc with hc | hc
      · rw [hc]
        exact hdig (n % 10) (by omega)
      · exact hacc c hc

theorem natToDecimal_digits (n : Nat) :
    natToDecimal n ≠ [] ∧
      ∀ c ∈ natToDecimal n, 48 ≤ c.toNat ∧ c.toNat ≤ 57 :=
  natToDecimalAux_digits n [] (by simp)

theorem digit_not_jsWhitespace (c : Char) (h1 : 48 ≤ c.toNat)
    (h2 : c.toNat ≤ 57) : isJsWhitespace c = false := by
  simp only [isJsWhitespace, Bool.or_eq_false_iff, decide_eq_false_iff_not,
    Bool.and_eq_false_iff]
  omega

theorem jsTrim_of_digits (s : List Char)
    (h : ∀ c ∈ s, 48 ≤ c.toNat ∧ c.toNat ≤ 57) : jsTrim s = s := by
  unfold jsTrim
  have h1 : s.dropWhile isJsWhitespace = s := by
    rcases hs : s with _ | ⟨c, rest⟩
    · rfl
    · rw [List.dropWhile_cons,
        digit_not_jsWhitespace c (h c (by rw [hs]; simp)).1
          (h c (by rw [hs]; simp)).2]
      simp
  rw [h1]
  have h2 : s.reverse.dropWhile isJsWhitespace = s.reverse := by
    rcases hs : s.reverse with _ | ⟨c, rest⟩
    · rfl
    · have hc : c ∈ s := by
        rw [← List.mem_reverse, hs]
        simp
      rw [List.dropWhile_cons,
        digit_not_jsWhitespace c (h c hc).1 (h c hc).2]
      simp
  rw [h2, List.reverse_reverse]

/-- C10: every seed the "new seed" control writes is accepted by the
submission check: for every value r in [0, 1) returned by the random
source, `Math.trunc(r * 2**32)` is an integer in 0..2^32-1 whose decimal
rendering passes the trimmed digit test, so `generate` never answers a
freshly generated seed with "Seed must be a number". -/
theorem c10_newSeed_accepted (r : ℚ) (h0 : 0 ≤ r) (h1 : r < 1) :
    newSeed r < 2 ^ 32 ∧
    integerRegexTest (jsTrim (natToDecimal (newSeed r))) = true ∧
    (∀ store dup spoil out,
      generate store (natToDecimal (newSeed r)) dup spoil = some out →
      out.message ≠ some "Seed must be a number") := by
  have hx0 : (0 : ℚ) ≤ r * 2 ^ 32 := by positivity
  have htr : mathTrunc (r * 2 ^ 32) = ⌊r * 2 ^ 32⌋ := if_pos hx0
  have hflo0 : 0 ≤ ⌊r * 2 ^ 32⌋ := Int.floor_nonneg.mpr hx0
  have hlt : ⌊r * 2 ^ 32⌋ < 2 ^ 32 := by
    rw [Int.floor_lt]
    push_cast
    linarith [mul_lt_mul_of_pos_right h1 (show (0 : ℚ) < 2 ^ 32 by positivity)]
  have hseed : newSeed r < 2 ^ 32 := by
    unfold newSeed
    rw [htr]
    omega
  have hregex : integerRegexTest (jsTrim (natToDecimal (newSeed r))) = true := by
    obtain ⟨hne, hdig⟩ := natToDecimal_digits (newSeed r)
    rw [jsTrim_of_digits _ hdig]
    simp only [integerRegexTest, Bool.and_eq_true, List.all_eq_true,
      decide_eq_true_eq, Bool.not_eq_true']
    refine ⟨?_, fun c hc => ?_⟩
    · rcases hs : natToDecimal (newSeed r) with _ | ⟨c, rest⟩
      · exact absurd hs hne
      · rfl
    · exact ⟨(hdig c hc).1, (hdig c hc).2⟩
  refine ⟨hseed, hregex, ?_⟩
  intro store dup spoil out hout
  rcases store with _ | b64
  · simp only [generate] at hout
    cases hout
    decide
  · rcases hdec : base64ToBytes b64 with _ | bytes
    · simp only [generate, hdec] at hout
      cases hout
    · rcases hval : isValidROM bytes with _ | bv
      · simp only [generate, hdec, hval] at hout
        cases hout
        decide
      · cases bv
        · simp only [generate, hdec, hval] at hout
          cases hout
          decide
        · simp only [generate, hdec, hval] at hout
          rw [if_neg (by simp [hregex])] at hout
          cases hout
          dsimp only
          decide

/-- Witness for C10 at the concrete random value 0. -/
theorem c10_newSeed_accepted_witness :
    (0 : ℚ) ≤ 0 ∧ (0 : ℚ) < 1 ∧
    (newSeed 0 < 2 ^ 32 ∧
     integerRegexTest (jsTrim (natToDecimal (newSeed 0))) = true ∧
     (∀ store dup spoil out,
       generate store (natToDecimal (newSeed 0)) dup spoil = some out →
       out.message ≠ some "Seed must be a number")) :=
  ⟨le_refl 0, by norm_num, c10_newSeed_accepted 0 (le_refl 0) (by norm_num)⟩
